import Mathlib

/-!
Verification of the SSAPRE pass (lib/Transforms/Scalar/SSAPRE.cpp and
include/llvm/Transforms/Scalar/SSAPRE.h) against its specification.

The development is a shallow embedding of the pass: LLVM `Value*` operands
are modelled by an inductive carrying the data the pass inspects plus a
numeric pointer address (used only where the C++ compares or orders raw
pointers); the pass's heap-allocated `Expression` objects are modelled by a
flat record `ExprObj` living in an explicit heap (a list indexed by
allocation order, so a `Ptr` plays the role of a C++ pointer); `DenseMap`s
keyed by `Expression *` are association lists keyed by those `Ptr`
addresses, exactly as the source's pointer-keyed maps behave.  External
collaborators that the spec declares out of scope (the instruction
simplifier, the IDF calculator, the dominator tree and its `dominates`
query, the reverse-post-order traversal) are parameters.
-/

namespace SSAPRE

/-- Model of an LLVM `Value` used as an instruction operand.  `addr` models
the object's pointer address; the pass compares raw pointers only as a
tie-break inside `ShouldSwapOperands` and for operand-list equality. -/
inductive Value where
  | undef (addr : Nat)
  | const (addr : Nat)
  | arg (argNo : Nat) (addr : Nat)
  | inst (instId : Nat) (addr : Nat)
deriving DecidableEq, Repr

instance : Inhabited Value := ⟨Value.undef 0⟩

def Value.addr : Value → Nat
  | .undef a => a
  | .const a => a
  | .arg _ a => a
  | .inst _ a => a

/-- `isa<Constant>(V)`: both `UndefValue` and ordinary constants are
`Constant`s in LLVM. -/
def isConstantValue : Value → Bool
  | .undef _ => true
  | .const _ => true
  | _ => false

/-- The instruction opcodes the pass distinguishes (`CreateExpression`'s
switch plus terminators). -/
inductive Opcode where
  | ret | br
  | add | fadd | sub | fsub | mul | fmul
  | udiv | sdiv | fdiv | urem | srem | frem
  | shl | lshr | ashr | andB | orB | xorB
  | alloca | load | store | getelementptr
  | trunc | zext | sext | fptoui | fptosi | uitofp | sitofp
  | fptrunc | fpext | ptrtoint | inttoptr | bitcast
  | icmp | fcmp | phi | call | select
  | extractelement | insertelement | shufflevector
  | extractvalue | insertvalue
  | other (n : Nat)
deriving DecidableEq, Repr

/-- `Instruction::getOpcode()` numbering of the LLVM version this pass was
written against (the era that still has `TerminatorInst`). -/
def opcodeNum : Opcode → Nat
  | .ret => 1 | .br => 2
  | .add => 11 | .fadd => 12 | .sub => 13 | .fsub => 14 | .mul => 15 | .fmul => 16
  | .udiv => 17 | .sdiv => 18 | .fdiv => 19 | .urem => 20 | .srem => 21 | .frem => 22
  | .shl => 23 | .lshr => 24 | .ashr => 25 | .andB => 26 | .orB => 27 | .xorB => 28
  | .alloca => 29 | .load => 30 | .store => 31 | .getelementptr => 32
  | .trunc => 36 | .zext => 37 | .sext => 38 | .fptoui => 39 | .fptosi => 40
  | .uitofp => 41 | .sitofp => 42 | .fptrunc => 43 | .fpext => 44
  | .ptrtoint => 45 | .inttoptr => 46 | .bitcast => 47
  | .icmp => 51 | .fcmp => 52 | .phi => 53 | .call => 54 | .select => 55
  | .extractelement => 59 | .insertelement => 60 | .shufflevector => 61
  | .extractvalue => 62 | .insertvalue => 63
  | .other n => n

/-- `Instruction::isCommutative()`. -/
def isCommutative : Opcode → Bool
  | .add => true | .fadd => true | .mul => true | .fmul => true
  | .andB => true | .orB => true | .xorB => true
  | _ => false

/-- `Instruction::isTerminator()` restricted to the terminators we model. -/
def isTerminator : Opcode → Bool
  | .ret => true | .br => true
  | _ => false

/-- `Instruction::isBinaryOp()` (opcodes Add..Xor). -/
def isBinaryOp : Opcode → Bool
  | .add => true | .fadd => true | .sub => true | .fsub => true
  | .mul => true | .fmul => true | .udiv => true | .sdiv => true
  | .fdiv => true | .urem => true | .srem => true | .frem => true
  | .shl => true | .lshr => true | .ashr => true
  | .andB => true | .orB => true | .xorB => true
  | _ => false

def isCmpOp : Opcode → Bool
  | .icmp => true | .fcmp => true
  | _ => false

/-- `CmpInst::getSwappedPredicate`.  FCmp predicates are 0..15, ICmp
predicates 32..41; ordered comparisons swap with their mirror. -/
def swappedPred : Nat → Nat
  | 2 => 4   -- FCMP_OGT ↔ FCMP_OLT
  | 3 => 5   -- FCMP_OGE ↔ FCMP_OLE
  | 4 => 2
  | 5 => 3
  | 10 => 12 -- FCMP_UGT ↔ FCMP_ULT
  | 11 => 13 -- FCMP_UGE ↔ FCMP_ULE
  | 12 => 10
  | 13 => 11
  | 34 => 36 -- ICMP_UGT ↔ ICMP_ULT
  | 35 => 37 -- ICMP_UGE ↔ ICMP_ULE
  | 36 => 34
  | 37 => 35
  | 38 => 40 -- ICMP_SGT ↔ ICMP_SLT
  | 39 => 41 -- ICMP_SGE ↔ ICMP_SLE
  | 40 => 38
  | 41 => 39
  | p => p   -- EQ/NE/ORD/UNO etc. are their own swap

/-- Model of an LLVM `Instruction` as the pass reads it. -/
structure Inst where
  id : Nat
  op : Opcode
  cmpPred : Nat := 0
  operands : List Value := []
  ty : Nat := 0
  srcElemTy : Nat := 0
deriving DecidableEq, Repr

/-- `ExpressionType` from SSAPRE.h (enum order matters for
`BasicExpression::classof`, which tests `ET_BasicStart < ET < ET_BasicEnd`,
i.e. exactly Basic and Phi). -/
inductive EType where
  | base | buttom | ignored | unknown | constant | var | factor | basic | phi
deriving DecidableEq, Repr

def isBasicClassof (t : EType) : Bool := t == .basic || t == .phi
def isFactorClassof (t : EType) : Bool := t == .factor
def isIgnoredClassof (t : EType) : Bool := t == .ignored
def isUnknownClassof (t : EType) : Bool := t == .unknown

/-- Heap address of an `Expression` object. -/
abbrev Ptr := Nat

/-- The single heap model of every `Expression` subclass: shared header
fields first, then the `IgnoredExpression`, `BasicExpression` and
`FactorExpression` payloads.  A factor operand slot (`Versions[i]`, an
`Expression *`) is `Option Ptr`: `none` is the null pointer the constructor
writes, `some bexprPtr` is the address of the global `BExpr` ⊥ sentinel. -/
structure ExprObj where
  etype : EType := .base
  opcode : Nat := 2 ^ 32 - 3   -- the ~2U default of the Expression ctor
  version : Int := -1
  save : Bool := true
  reload : Bool := false
  -- IgnoredExpression / UnknownExpression payload
  inst : Nat := 0
  -- BasicExpression payload
  vtype : Nat := 0
  operands : List Value := []
  -- PHIExpression payload
  phiBB : Nat := 0
  -- FactorExpression payload
  pe : Ptr := 0
  bb : Nat := 0
  fpreds : List Nat := []
  fversions : List (Option Ptr) := []
  downSafe : Bool := true
  hasRealUse : List Bool := []
  canBeAvail : Bool := true
  later : Bool := true
deriving DecidableEq, Repr

instance : Inhabited ExprObj := ⟨{}⟩

/-- The global ⊥ object: `Expression BExpr(ET_Buttom, ~2U, false)`. -/
def bexprObj : ExprObj := { etype := .buttom, save := false }

/-- `&BExpr`: the sentinel lives at heap address 0. -/
def bexprPtr : Ptr := 0

abbrev Heap := List ExprObj

def heap0 : Heap := [bexprObj]

def readE (h : Heap) (p : Ptr) : ExprObj := h.getD p default

def writeE (h : Heap) (p : Ptr) (e : ExprObj) : Heap := h.set p e

def allocE (h : Heap) (e : ExprObj) : Heap × Ptr := (h ++ [e], h.length)

/-- `FactorExpression::getWillBeAvail`. -/
def getWillBeAvail (e : ExprObj) : Bool := e.canBeAvail && !e.later

/-- `FactorExpression::getVExprIndex(&BExpr) != -1UL`: some operand slot
holds the ⊥ sentinel (a never-written null slot does not count). -/
def factorHasBottom (e : ExprObj) : Bool := e.fversions.any (· == some bexprPtr)

/-- `FactorExpression::getPredIndex`, -1 modelled as `none`. -/
def getPredIndex (e : ExprObj) (b : Nat) : Option Nat := e.fpreds.indexOf? b

/-- Structural `Expression::operator==`/`equals` (virtual dispatch on the
left object's dynamic type, as the C++ does). -/
def exprEquals (a b : ExprObj) : Bool :=
  if a.opcode != b.opcode then false
  else if a.opcode == 2 ^ 32 - 1 || a.opcode == 2 ^ 32 - 2 then true
  else
    let base := a.etype == b.etype && a.opcode == b.opcode && a.version == b.version
    match a.etype with
    | .ignored => base && b.etype == .ignored && a.inst == b.inst
    | .unknown =>
      -- UnknownExpression inherits IgnoredExpression::equals, whose
      -- dyn_cast<IgnoredExpression> requires ET_Ignored on the other side.
      base && b.etype == .ignored && a.inst == b.inst
    | .basic => base && isBasicClassof b.etype && a.vtype == b.vtype && a.operands == b.operands
    | .phi => base && isBasicClassof b.etype && a.vtype == b.vtype && a.operands == b.operands
              && b.etype == .phi && a.phiBB == b.phiBB
    | .factor => base && b.etype == .factor && a.bb == b.bb
    | _ => base

/-- `SSAPRE::GetRank`.  `dfs` is the `InstrDFS` lookup (0 = absent);
`unsigned` arithmetic is carried mod 2^32. -/
def getRank (numFuncArgs : Nat) (dfs : Nat → Nat) : Value → Nat
  | .undef _ => 0
  | .const _ => 1
  | .arg n _ => (2 + n) % 2 ^ 32
  | .inst iid _ =>
    let r := dfs iid
    if r > 0 then (3 + numFuncArgs + r) % 2 ^ 32 else 2 ^ 32 - 1

/-- `SSAPRE::ShouldSwapOperands`: lexicographic comparison of
`make_pair(GetRank(A), A) > make_pair(GetRank(B), B)`. -/
def shouldSwapOperands (numFuncArgs : Nat) (dfs : Nat → Nat) (a b : Value) : Bool :=
  if getRank numFuncArgs dfs a = getRank numFuncArgs dfs b then decide (a.addr > b.addr)
  else decide (getRank numFuncArgs dfs a > getRank numFuncArgs dfs b)

/-- The out-of-scope instruction-simplification interface
(`SimplifyCmpInst`, `SimplifySelectInst`, `SimplifyBinOp`,
`SimplifyInstruction`, `SimplifyGEPInst`, `ConstantFoldInstOperands`),
modelled as oracles returning an optional folded value. -/
structure SimpOracle where
  simplifyCmp : Nat → Value → Value → Option Value := fun _ _ _ => none
  simplifySelect : Value → Value → Value → Option Value := fun _ _ _ => none
  simplifyBinOp : Nat → Value → Value → Option Value := fun _ _ _ => none
  simplifyInst : Inst → Option Value := fun _ => none
  simplifyGEP : Nat → List Value → Option Value := fun _ _ => none
  constantFold : Inst → List Value → Option Value := fun _ _ => none

def oracle0 : SimpOracle := {}

/-- `SSAPRE::CreateIgnoredExpression`. -/
def createIgnoredExpression (I : Inst) : ExprObj :=
  { etype := .ignored, opcode := opcodeNum I.op, inst := I.id }

/-- `SSAPRE::CreateUnknownExpression`. -/
def createUnknownExpression (I : Inst) : ExprObj :=
  { etype := .unknown, opcode := opcodeNum I.op, inst := I.id }

/-- `SSAPRE::FillInBasicExpressionInfo`: fills type (source element type
for GEP), opcode and source-order operands; returns the AllConstant flag. -/
def fillInBasicExpressionInfo (I : Inst) (e : ExprObj) : ExprObj × Bool :=
  let e := { e with vtype := if I.op == .getelementptr then I.srcElemTy else I.ty,
                    opcode := opcodeNum I.op,
                    operands := I.operands }
  (e, I.operands.all isConstantValue)

/-- `CheckSimplificationResults`: nullptr result falls through; a constant
(undef included) or an argument/global collapses to an Ignored
expression. -/
def checkSimplificationResults (I : Inst) (v : Option Value) : Option ExprObj :=
  match v with
  | none => none
  | some val =>
    if isConstantValue val then some (createIgnoredExpression I)
    else
      match val with
      | .arg _ _ => some (createIgnoredExpression I)
      | _ => none

def swap01 : List Value → List Value
  | a :: b :: rest => b :: a :: rest
  | l => l

/-- `SSAPRE::CreateBasicExpression`, including the commutative-operand
sort, the (dead, see `createExpression`) compare canonicalization with the
packed `(opcode << 8) | predicate`, and the simplification dispatch. -/
def createBasicExpression (nargs : Nat) (dfs : Nat → Nat) (oracle : SimpOracle)
    (I : Inst) : ExprObj :=
  let e0 : ExprObj := { etype := .basic }
  let (e, allConstant) := fillInBasicExpressionInfo I e0
  let e :=
    if isCommutative I.op then
      if shouldSwapOperands nargs dfs (e.operands.getD 0 default) (e.operands.getD 1 default)
      then { e with operands := swap01 e.operands } else e
    else e
  if isCmpOp I.op then
    let (e, pr) :=
      if shouldSwapOperands nargs dfs (e.operands.getD 0 default) (e.operands.getD 1 default)
      then ({ e with operands := swap01 e.operands }, swappedPred I.cmpPred)
      else (e, I.cmpPred)
    let e := { e with opcode := (opcodeNum I.op * 256 + pr) % 2 ^ 32 }
    match checkSimplificationResults I
        (oracle.simplifyCmp pr (e.operands.getD 0 default) (e.operands.getD 1 default)) with
    | some se => se
    | none => e
  else if I.op == .select then
    if isConstantValue (e.operands.getD 0 default)
        || e.operands.getD 0 default == e.operands.getD 1 default then
      match checkSimplificationResults I
          (oracle.simplifySelect (e.operands.getD 0 default) (e.operands.getD 1 default)
            (e.operands.getD 2 default)) with
      | some se => se
      | none => e
    else e
  else if isBinaryOp I.op then
    match checkSimplificationResults I
        (oracle.simplifyBinOp e.opcode (e.operands.getD 0 default) (e.operands.getD 1 default)) with
    | some se => se
    | none => e
  else if I.op == .bitcast then
    match checkSimplificationResults I (oracle.simplifyInst I) with
    | some se => se
    | none => e
  else if I.op == .getelementptr then
    match checkSimplificationResults I (oracle.simplifyGEP e.vtype e.operands) with
    | some se => se
    | none => e
  else if allConstant then
    match checkSimplificationResults I (oracle.constantFold I e.operands) with
    | some se => se
    | none => e
  else e

/-- `SSAPRE::CreatePHIExpression` (the .cpp builds a PHIExpression and
fills the shared basic-expression info; it never sets the block). -/
def createPHIExpression (I : Inst) : ExprObj :=
  (fillInBasicExpressionInfo I { etype := .phi }).1

/-- `SSAPRE::CreateExpression`: the dispatch switch.  Aggregate, call,
store, load — and, because their case bodies are commented out, ICmp and
FCmp — leave `E` null, and `if (!E) E = CreateUnknownExpression(I)`
applies. -/
def createExpression (nargs : Nat) (dfs : Nat → Nat) (oracle : SimpOracle)
    (I : Inst) : ExprObj :=
  match I.op with
  | .extractvalue => createUnknownExpression I
  | .insertvalue => createUnknownExpression I
  | .phi => createPHIExpression I
  | .call => createUnknownExpression I
  | .store => createUnknownExpression I
  | .load => createUnknownExpression I
  | .bitcast => createBasicExpression nargs dfs oracle I
  | .icmp => createUnknownExpression I
  | .fcmp => createUnknownExpression I
  | .add | .fadd | .sub | .fsub | .mul | .fmul
  | .udiv | .sdiv | .fdiv | .urem | .srem | .frem
  | .shl | .lshr | .ashr | .andB | .orB | .xorB
  | .trunc | .zext | .sext | .fptoui | .fptosi | .uitofp | .sitofp
  | .fptrunc | .fpext | .ptrtoint | .inttoptr
  | .select | .extractelement | .insertelement | .shufflevector
  | .getelementptr => createBasicExpression nargs dfs oracle I
  | _ => createUnknownExpression I

/-- `SSAPRE::CreateFactorExpression` / the `FactorExpression` constructor:
fresh factors start DownSafe, CanBeAvail and Later all true, every
HasRealUse flag false, every version slot the null pointer. -/
def createFactorExpressionObj (pe : Ptr) (bb : Nat) (preds : List Nat) : ExprObj :=
  { etype := .factor, pe := pe, bb := bb, fpreds := preds,
    fversions := List.replicate preds.length none,
    downSafe := true,
    hasRealUse := List.replicate preds.length false,
    canBeAvail := true, later := true }

-- Concrete values for the spec's scenarios: x and y are the first two
-- function arguments (distinct objects, hence distinct addresses).
def xArg : Value := .arg 0 100
def yArg : Value := .arg 1 101

def dfs0 : Nat → Nat := fun _ => 0

def addXY : Inst := { id := 1, op := .add, operands := [xArg, yArg], ty := 7 }
def addYX : Inst := { id := 2, op := .add, operands := [yArg, xArg], ty := 7 }

def icmpSltXY : Inst := { id := 3, op := .icmp, cmpPred := 40, operands := [xArg, yArg], ty := 8 }
def icmpSgtYX : Inst := { id := 4, op := .icmp, cmpPred := 38, operands := [yArg, xArg], ty := 8 }

/-- Model of a basic block as the pass reads it: instructions in program
order plus the CFG successor/predecessor lists (`TerminatorInst::successors`
and `pred_begin/pred_end` order). -/
structure Block where
  id : Nat
  insts : List Inst
  succs : List Nat := []
  preds : List Nat := []
deriving DecidableEq, Repr

/-- Association-list update, modelling `DenseMap::insert` / `operator[]`
assignment for pointer-keyed maps. -/
def aset [DecidableEq α] (m : List (α × β)) (k : α) (v : β) : List (α × β) :=
  match m with
  | [] => [(k, v)]
  | (k', v') :: rest => if k' = k then (k, v) :: rest else (k', v') :: aset rest k v

/-- The SSAPRE pass state: the expression heap plus every pointer-keyed
`DenseMap` member of the `SSAPRE` class that the six steps touch (keys are
heap addresses, exactly like the source's `Expression *` keys). -/
structure PState where
  heap : Heap := heap0
  instToVExpr : List (Nat × Ptr) := []
  vexprToInst : List (Ptr × Nat) := []
  vexprToPExpr : List (Ptr × Ptr) := []
  pexprToVExprs : List (Ptr × List Ptr) := []
  pexprToInsts : List (Ptr × List Nat) := []
  pexprToBlocks : List (Ptr × List Nat) := []
  pexprToRC : List (Ptr × Nat) := []
  fexprs : List Ptr := []
  blockToFactors : List (Nat × List Ptr) := []
  blockToInserts : List (Nat × List Ptr) := []
  availDef : List (Ptr × List (Int × Ptr)) := []
  killList : List Nat := []
  instrDFS : List (Nat × Nat) := []
  instrSDFS : List (Nat × Nat) := []
deriving DecidableEq, Repr

/-- One iteration of the expression-collection loop in `runImpl`: for a
real (non-terminator) instruction, allocate a prototype `PE` and a
versioned `VE` by two separate `CreateExpression` calls, then record them
in the pointer-keyed maps.  `InstrDFS` is still empty at this point of
`runImpl`, so `CreateExpression` ranks instruction operands with an empty
DFS lookup. -/
def initInst (nargs : Nat) (oracle : SimpOracle) (bId : Nat)
    (st : PState) (I : Inst) : PState :=
  if isTerminator I.op then st
  else
    let (h1, pePtr) := allocE st.heap (createExpression nargs dfs0 oracle I)
    let (h2, vePtr) := allocE h1 (createExpression nargs dfs0 oracle I)
    let st := { st with heap := h2,
                        instToVExpr := aset st.instToVExpr I.id vePtr,
                        vexprToInst := aset st.vexprToInst vePtr I.id,
                        vexprToPExpr := aset st.vexprToPExpr vePtr pePtr }
    let st := { st with pexprToVExprs :=
        match st.pexprToVExprs.lookup pePtr with
        | none => aset st.pexprToVExprs pePtr [vePtr]
        | some l => aset st.pexprToVExprs pePtr (l ++ [vePtr]) }
    match st.pexprToInsts.lookup pePtr with
    | none =>
      { st with pexprToRC := aset st.pexprToRC pePtr 0,
                pexprToInsts := aset st.pexprToInsts pePtr [I.id],
                pexprToBlocks := aset st.pexprToBlocks pePtr [bId] }
    | some l =>
      { st with pexprToInsts := aset st.pexprToInsts pePtr (l ++ [I.id]),
                pexprToBlocks := aset st.pexprToBlocks pePtr
                  ((st.pexprToBlocks.lookup pePtr).getD [] ++ [bId]) }

/-- The expression-collection loop over the blocks of the RPO traversal. -/
def initCollect (nargs : Nat) (oracle : SimpOracle) (blocks : List Block)
    (st : PState) : PState :=
  blocks.foldl (fun st b => b.insts.foldl (initInst nargs oracle b.id) st) st

-- The spec's grouping scenario for C2: one block holding two distinct
-- instructions that compute the same canonicalized expression, then a
-- terminator.
def addXY2 : Inst := { id := 2, op := .add, operands := [xArg, yArg], ty := 7 }

def twoAddsBlock : Block :=
  { id := 0, insts := [addXY, addXY2, { id := 9, op := .ret }] }

def twoAddsInit : PState := initCollect 2 oracle0 [twoAddsBlock] {}

/-!
Step 3: DownSafety.  `ResetDownSafety(FE, ON)` inspects operand slot `ON`
of `FE`: if the slot has a real use or does not hold a factor it returns;
otherwise it clears the operand factor's `DownSafe` (if still set) and
recurses into all of that factor's slots.  `DownSafety()` runs this from
every factor whose `DownSafe` is already false.  The C++ recursion is
modelled with explicit fuel; `downSafety` supplies `h.length + 1`, which
exceeds the number of down-safe factors and is shown sufficient below.
-/

def resetDownSafety : Nat → Heap → Ptr → Nat → Heap
  | 0, h, _, _ => h
  | fuel + 1, h, fp, sl =>
    if (readE h fp).hasRealUse.getD sl false then h
    else
      match (readE h fp).fversions.getD sl none with
      | none => h  -- a never-assigned (null) slot is not a factor object
      | some ep =>
        if isFactorClassof (readE h ep).etype then
          if (readE h ep).downSafe then
            (List.range (readE h ep).fversions.length).foldl
              (fun hh i => resetDownSafety fuel hh ep i)
              (writeE h ep { readE h ep with downSafe := false })
          else h
        else h

/-- The `for (i = 0, l = F->getVExprNum(); i < l; ++i) ResetDownSafety(*F, i)`
loop shared by `ResetDownSafety` and `DownSafety`. -/
def resetDSSlots (fuel : Nat) (h : Heap) (fp : Ptr) (slots : List Nat) : Heap :=
  slots.foldl (fun hh i => resetDownSafety fuel hh fp i) h

/-- `SSAPRE::DownSafety()`: skip factors still down-safe, propagate from
the others. -/
def downSafetyLoop (fuel : Nat) (h : Heap) : List Ptr → Heap
  | [] => h
  | fp :: rest =>
    if (readE h fp).downSafe then downSafetyLoop fuel h rest
    else downSafetyLoop fuel
      (resetDSSlots fuel h fp (List.range (readE h fp).fversions.length)) rest

def downSafety (h : Heap) (fexprs : List Ptr) : Heap :=
  downSafetyLoop (h.length + 1) h fexprs

/-- The propagation edge of the claim: factor `f` references the factor
object `g` through an operand slot carrying no real use. -/
def dsEdge (h : Heap) (f g : Ptr) : Prop :=
  isFactorClassof (readE h g).etype = true ∧
  ∃ i, (readE h f).fversions.getD i none = some g ∧
       (readE h f).hasRealUse.getD i false = false

/-- The fields DownSafety never writes (it only flips `downSafe`). -/
def sameSkeleton (h h' : Heap) : Prop :=
  h'.length = h.length ∧ ∀ p,
    (readE h' p).fversions = (readE h p).fversions ∧
    (readE h' p).hasRealUse = (readE h p).hasRealUse ∧
    (readE h' p).etype = (readE h p).etype

/-- Slot `sl` of `fp` (slot data read in `h0`) has its forced clearing
realized in `hF`. -/
def slotClosed (h0 hF : Heap) (fp : Ptr) (sl : Nat) : Prop :=
  ∀ ep, (readE h0 fp).fversions.getD sl none = some ep →
    (readE h0 fp).hasRealUse.getD sl false = false →
    isFactorClassof (readE h0 ep).etype = true →
    (readE hF ep).downSafe = false

/-- What every DownSafety routine guarantees: the heap skeleton is
untouched and `downSafe` only ever goes from true to false. -/
def DSPost (h h' : Heap) : Prop :=
  sameSkeleton h h' ∧
  ∀ p, (readE h p).downSafe = false → (readE h' p).downSafe = false

/-- Every factor freshly cleared by a DownSafety routine has had all of
its own slots propagated into. -/
def ClosedPost (h h' : Heap) : Prop :=
  ∀ g, (readE h g).downSafe = true → (readE h' g).downSafe = false →
    ∀ i, slotClosed h h' g i

/-- The factors still down-safe: the measure showing the fuel suffices. -/
def trueFactorsSet (h : Heap) : Finset Nat :=
  (Finset.range h.length).filter
    (fun p => isFactorClassof (readE h p).etype = true ∧ (readE h p).downSafe = true)

def trueFactors (h : Heap) : Nat := (trueFactorsSet h).card

-- A two-factor heap exercising DownSafety: the factor at address 1 starts
-- with down_safe already cleared and references the factor at address 2
-- through an operand slot with no real use.
def dsFactorA : ExprObj :=
  { etype := .factor, downSafe := false, fversions := [some 2], hasRealUse := [false] }

def dsFactorB : ExprObj :=
  { etype := .factor, downSafe := true, fversions := [], hasRealUse := [] }

def dsHeapW : Heap := [bexprObj, dsFactorA, dsFactorB]

/-!
The six-step pipeline of `runImpl`.  The reverse-post-order traversal, the
dominator tree, the `DT->dominates` query and the IDF calculator are the
spec's external collaborators and enter as parameters.
-/

/-- The version stacks: `DenseMap<const Expression *, std::stack<...>>`.
The head of a list is the stack top. -/
abbrev StackMap := List (Nat × List (Nat × Ptr))

def stackOf (sm : StackMap) (k : Nat) : List (Nat × Ptr) := (sm.lookup k).getD []

/-- The pass inputs: function arg count, the simplification oracle, the
blocks in reverse post order, the dominance query on instruction ids
(0 plays nullptr), and the iterated-dominance-frontier calculator. -/
structure PassCtx where
  nargs : Nat
  oracle : SimpOracle := {}
  rpot : List Block
  dominates : Nat → Nat → Bool := fun _ _ => false
  idf : List Nat → List Nat := fun _ => []

instance : Inhabited Block := ⟨{ id := 0, insts := [] }⟩

def blockOf (ctx : PassCtx) (bid : Nat) : Block :=
  (ctx.rpot.find? (fun b => b.id == bid)).getD default

/-- `RPOOrdering`: blocks numbered 1.. in RPOT order. -/
def rpoOrdering (rpot : List Block) (bid : Nat) : Nat :=
  (rpot.map Block.id).indexOf bid + 1

/-- The dominator tree, handed in by the caller like LLVM's
`DominatorTree`: a root block and a children map. -/
structure DomTree where
  root : Nat
  children : Nat → List Nat

/-- Insertion sort by a boolean `le` — the `std::sort` of the dominator
tree children; the RPO keys are distinct, so stability is irrelevant. -/
def insertSorted (le : Nat → Nat → Bool) (x : Nat) : List Nat → List Nat
  | [] => [x]
  | y :: ys => if le x y then x :: y :: ys else y :: insertSorted le x ys

def sortByKey (le : Nat → Nat → Bool) : List Nat → List Nat
  | [] => []
  | x :: xs => insertSorted le x (sortByKey le xs)

/-- `df_begin(DT->getRootNode())` after sorting every node's children with
`le`: dominator-tree preorder.  `fuel` bounds the depth (the caller passes
the block count). -/
def domDFS (children : Nat → List Nat) (le : Nat → Nat → Bool) : Nat → Nat → List Nat
  | 0, _ => []
  | fuel + 1, b =>
    b :: (sortByKey le (children b)).foldl (fun acc c => acc ++ domDFS children le fuel c) []

/-- `AssignDFSNumbers` driven over a block order: consecutive numbers from
1 over every instruction of every block in order. -/
def assignDFSNumbers (blocks : List Block) : List (Nat × Nat) :=
  (blocks.foldl (fun (acc : List (Nat × Nat) × Nat) b =>
    b.insts.foldl (fun (acc : List (Nat × Nat) × Nat) I =>
      (acc.1 ++ [(I.id, acc.2)], acc.2 + 1)) acc) ([], 1)).1

/-- Find an instruction by id (resolving `dyn_cast<PHINode>(O)` on an
operand that names an instruction). -/
def findInst (ctx : PassCtx) (iid : Nat) : Option (Block × Inst) :=
  ctx.rpot.foldl (fun acc b =>
    match acc with
    | some r => some r
    | none => (b.insts.find? (fun I => I.id == iid)).map (fun I => (b, I))) none

/-- STEP 1, `FactorInsertion`: for every non-Ignored/Unknown prototype,
place a factor at each IDF block of its occurrence blocks (registered in
`FExprs` and `BlockToFactors`), and an extra factor at the block of every
φ-node operand of the prototype — the source registers the latter only in
`BlockToFactors`, not in `FExprs`. -/
def factorInsertion (ctx : PassCtx) (st : PState) : PState :=
  st.pexprToInsts.foldl (fun st pent =>
    let pe := pent.1
    let peObj := readE st.heap pe
    if isIgnoredClassof peObj.etype || isUnknownClassof peObj.etype then st
    else
      let defBlocks := (st.pexprToBlocks.lookup pe).getD []
      let st := (ctx.idf defBlocks).foldl (fun st b =>
        let (h, f) := allocE st.heap (createFactorExpressionObj pe b (blockOf ctx b).preds)
        { st with heap := h,
                  fexprs := st.fexprs ++ [f],
                  blockToFactors := aset st.blockToFactors b
                    ((st.blockToFactors.lookup b).getD [] ++ [f]) }) st
      if isBasicClassof peObj.etype then
        peObj.operands.foldl (fun st o =>
          match o with
          | .inst iid _ =>
            match findInst ctx iid with
            | some (b, I) =>
              if I.op == .phi then
                let (h, f) := allocE st.heap
                  (createFactorExpressionObj pe b.id b.preds)
                { st with heap := h,
                          blockToFactors := aset st.blockToFactors b.id
                            ((st.blockToFactors.lookup b.id).getD [] ++ [f]) }
              else st
            | none => st
          | _ => st) st
      else st) st

/-- STEP 2 block entry: `FE->setVersion(RC.Counter++)` for each factor of
the block, then `PExprToVExprStack[FE].push({FSDFS, FE})` — note the stack
is selected with the key `FE` (the factor expression object itself), not
with `&FE->getPExpr()` which every reader of the map uses. -/
def renameBlockFactors (st : PState) (sm : StackMap) (fsdfs : Nat)
    (factors : List Ptr) : PState × StackMap :=
  factors.foldl (fun acc fe =>
    let (st, sm) := acc
    let pePtr := (readE st.heap fe).pe
    let rc := (st.pexprToRC.lookup pePtr).getD 0
    let st := { st with
      heap := writeE st.heap fe ({ readE st.heap fe with version := Int.ofNat rc }),
      pexprToRC := aset st.pexprToRC pePtr (rc + 1) }
    let sm := aset sm fe ((fsdfs, fe) :: stackOf sm fe)
    (st, sm)) (st, sm)

/-- STEP 2 terminator visit: every factor of every CFG successor gets its
operand slot for this block set to the top of its prototype's stack (⊥
when that stack is empty) and `HasRealUse` set from
`BasicExpression::classof` of the top.  The source binds
`auto &VESTop = VES.top().second` before the emptiness test — undefined
behaviour when the stack is empty; the model reads the top optionally and
lets the (junk) `classof` be false then.  On an exit terminator
(`getNumSuccessors() == 0`) the top of every stack, when it is a factor,
gets `DownSafe` cleared (again a top read without an emptiness check in
the source; an empty stack is modelled as a no-op). -/
def renameTermVisit (st : PState) (sm : StackMap) (b : Block) : PState :=
  let st := b.succs.foldl (fun st s =>
    ((st.blockToFactors.lookup s).getD []).foldl (fun st f =>
      let fObj := readE st.heap f
      let ves := stackOf sm fObj.pe
      match getPredIndex fObj b.id with
      | none => st   -- assert(PI != -1UL): holds whenever preds match the CFG
      | some pi =>
        let slotVal : Option Ptr := match ves.head? with
          | none => some bexprPtr
          | some t => some t.2
        let hru : Bool := match ves.head? with
          | none => false
          | some t => isBasicClassof (readE st.heap t.2).etype
        let fObj2 := { fObj with fversions := fObj.fversions.set pi slotVal,
                                 hasRealUse := fObj.hasRealUse.set pi hru }
        { st with heap := writeE st.heap f fObj2 }) st) st
  if b.succs.isEmpty then
    sm.foldl (fun st ent =>
      match ent.2.head? with
      | none => st
      | some t =>
        if isFactorClassof (readE st.heap t.2).etype then
          let cleared := { readE st.heap t.2 with downSafe := false }
          { st with heap := writeE st.heap t.2 cleared }
        else st) st
  else st

/-- STEP 2 backtrace: pop every prototype stack while its top's SDFS is
greater than the current instruction's. -/
def backtrace (sm : StackMap) (sdfs : Nat) : StackMap :=
  sm.map (fun ent => (ent.1, ent.2.dropWhile (fun t => decide (t.1 > sdfs))))

/-- STEP 2 instruction loop of one block (stops at the terminator, whose
visit updates the successors' factors). -/
def renameInsts (st : PState) (sm : StackMap) (b : Block) :
    List Inst → PState × StackMap
  | [] => (st, sm)
  | I :: rest =>
    if isTerminator I.op then (renameTermVisit st sm b, sm)
    else
      let ve := (st.instToVExpr.lookup I.id).getD 0
      let pe := (st.vexprToPExpr.lookup ve).getD 0
      if isIgnoredClassof (readE st.heap ve).etype
          || isUnknownClassof (readE st.heap ve).etype then
        renameInsts st sm b rest
      else
        let sdfs := (st.instrSDFS.lookup I.id).getD 0
        let sm := backtrace sm sdfs
        let ves := stackOf sm pe
        let st :=
          match ves.head? with
          | some t =>
            if st.vexprToPExpr.lookup t.2 == some pe then
              -- inherit the version of the stack top
              let ve2 := { readE st.heap ve with version := (readE st.heap t.2).version }
              { st with heap := writeE st.heap ve ve2 }
            else
              -- fresh version; a superseded factor top loses DownSafe
              let rc := (st.pexprToRC.lookup pe).getD 0
              let ve2 := { readE st.heap ve with version := Int.ofNat rc }
              let st := { st with heap := writeE st.heap ve ve2,
                                  pexprToRC := aset st.pexprToRC pe (rc + 1) }
              if isFactorClassof (readE st.heap t.2).etype then
                let cleared := { readE st.heap t.2 with downSafe := false }
                { st with heap := writeE st.heap t.2 cleared }
              else st
          | none =>
            let rc := (st.pexprToRC.lookup pe).getD 0
            let ve2 := { readE st.heap ve with version := Int.ofNat rc }
            { st with heap := writeE st.heap ve ve2,
                      pexprToRC := aset st.pexprToRC pe (rc + 1) }
        let sm := aset sm pe ((sdfs, ve) :: stackOf sm pe)
        renameInsts st sm b rest

def renameBlock (st : PState) (sm : StackMap) (b : Block) : PState × StackMap :=
  let fsdfs := match b.insts.head? with
    | some I => (st.instrSDFS.lookup I.id).getD 0
    | none => 0
  let (st, sm) := renameBlockFactors st sm fsdfs
    ((st.blockToFactors.lookup b.id).getD [])
  renameInsts st sm b b.insts

/-- STEP 2, `Rename`: walk the blocks in RPO with fresh stacks. -/
def rename (ctx : PassCtx) (st : PState) : PState :=
  (ctx.rpot.foldl (fun acc b => renameBlock acc.1 acc.2 b) (st, ([] : StackMap))).1

/-- `FactorExpression::getVExprIndex(&V)`: first slot holding the given
expression pointer. -/
def getVExprIndex (e : ExprObj) (v : Ptr) : Option Nat :=
  e.fversions.indexOf? (some v)

/-- STEP 4, `ResetCanBeAvail`: clear `CanBeAvail` on `g`, rewrite every
no-real-use slot referencing `g` to ⊥, recursing into owners that now
match the trigger.  Fuel bounds the recursion (each recursive call has
just cleared a fresh `CanBeAvail`). -/
def resetCanBeAvail (fexprs : List Ptr) : Nat → Heap → Ptr → Heap
  | 0, h, _ => h
  | fuel + 1, h, g =>
    let h := writeE h g { readE h g with canBeAvail := false }
    fexprs.foldl (fun h f =>
      let fObj := readE h f
      match getVExprIndex fObj g with
      | none => h
      | some i =>
        if fObj.hasRealUse.getD i false then h
        else
          let h := writeE h f { fObj with fversions := fObj.fversions.set i (some bexprPtr) }
          if !(readE h f).downSafe && (readE h f).canBeAvail then
            resetCanBeAvail fexprs fuel h f
          else h) h

/-- STEP 4, `ComputeCanBeAvail`: trigger on factors that are not
down-safe, still can-be-avail, and have a ⊥ operand. -/
def computeCanBeAvail (fexprs : List Ptr) (h : Heap) : Heap :=
  fexprs.foldl (fun h f =>
    let fObj := readE h f
    if !fObj.downSafe && fObj.canBeAvail && factorHasBottom fObj then
      resetCanBeAvail fexprs (h.length + 1) h f
    else h) h

/-- STEP 4, `ResetLater`: clear `Later` on `g` and on every factor that
references `g`, transitively. -/
def resetLater (fexprs : List Ptr) : Nat → Heap → Ptr → Heap
  | 0, h, _ => h
  | fuel + 1, h, g =>
    let h := writeE h g { readE h g with later := false }
    fexprs.foldl (fun h f =>
      match getVExprIndex (readE h f) g with
      | none => h
      | some _ => if (readE h f).later then resetLater fexprs fuel h f else h) h

/-- STEP 4, `ComputeLater`: seed `Later := CanBeAvail`, then clear it on
every factor owning a real-use operand slot different from ⊥ (a null
slot also differs from `&BExpr`). -/
def computeLater (fexprs : List Ptr) (h : Heap) : Heap :=
  let h := fexprs.foldl (fun h f =>
    writeE h f { readE h f with later := (readE h f).canBeAvail }) h
  fexprs.foldl (fun h f =>
    let fObj := readE h f
    if fObj.later then
      if (List.range fObj.fversions.length).any (fun i =>
          fObj.hasRealUse.getD i false && fObj.fversions.getD i none != some bexprPtr) then
        resetLater fexprs (h.length + 1) h f
      else h
    else h) h

/-- STEP 4, `WillBeAvail`. -/
def willBeAvail (st : PState) : PState :=
  { st with heap := computeLater st.fexprs (computeCanBeAvail st.fexprs st.heap) }

/-- STEP 5 factor phase of `FinalizeVisit`: clear `Save`/`Reload` on each
factor of the block and install the will-be-avail ones into
`AvailDef[PE][version]` (all threeC++ branches amount to this nested
store, through a live reference). -/
def finalizeFactors (st : PState) (b : Block) : PState :=
  ((st.blockToFactors.lookup b.id).getD []).foldl (fun st f =>
    let cleared := { readE st.heap f with save := false, reload := false }
    let st := { st with heap := writeE st.heap f cleared }
    let fObj := readE st.heap f
    if getWillBeAvail fObj then
      let inner := (st.availDef.lookup fObj.pe).getD []
      { st with availDef := aset st.availDef fObj.pe (aset inner fObj.version f) }
    else st) st

/-- The `if (I.isTerminator())` tail of the `FinalizeVisit` instruction
loop (SSAPRE.cpp lines 545-578): record an edge insert for every
will-be-avail successor factor whose operand is ⊥, or has no real use
while being a non-will-be-avail factor; otherwise mark the available
definition of the operand's version as saved.  This code is unreachable —
the loop `continue`s on terminators before it (see
`c3_insert_recording_dead`) — but is modelled faithfully. -/
def finalizeTermTail (st : PState) (b : Block) : PState :=
  b.succs.foldl (fun st s =>
    ((st.blockToFactors.lookup s).getD []).foldl (fun st f =>
      let fObj := readE st.heap f
      if getWillBeAvail fObj then
        match getPredIndex fObj b.id with
        | none => st
        | some pi =>
          let o := fObj.fversions.getD pi none
          if o == some bexprPtr
              || (!(fObj.hasRealUse.getD pi false)
                  && isFactorClassof (readE st.heap (o.getD 0)).etype
                  && !getWillBeAvail (readE st.heap (o.getD 0))) then
            let ins := (st.blockToInserts.lookup b.id).getD [] ++ [fObj.pe]
            { st with blockToInserts := aset st.blockToInserts b.id ins }
          else
            let ov := (readE st.heap (o.getD 0)).version
            match st.availDef.lookup fObj.pe with
            | none => st
            | some inner =>
              match inner.lookup ov with
              | some dp =>
                if isBasicClassof (readE st.heap dp).etype then
                  let saved := { readE st.heap dp with save := true }
                  { st with heap := writeE st.heap dp saved }
                else st
              | none => st
      else st) st) st

/-- STEP 5 per-instruction body of `FinalizeVisit`: skip terminators and
inert kinds; clear `Save`/`Reload`; then the available-definition logic —
with `auto ADE = AvailDef[PE]`, a by-value copy of the inner map, so the
`ADE[V] = VE` installs mutate only the local copy and are lost, while
`ADE[V]->setSave(true)` still reaches the shared expression object. -/
def finalizeRealStep (ctx : PassCtx) (st : PState) (b : Block) (I : Inst) : PState :=
  let ve := (st.instToVExpr.lookup I.id).getD 0
  if isTerminator I.op
      || isIgnoredClassof (readE st.heap ve).etype
      || isUnknownClassof (readE st.heap ve).etype then st
  else
    let pe := (st.vexprToPExpr.lookup ve).getD 0
    let cleared := { readE st.heap ve with save := false, reload := false }
    let st := { st with heap := writeE st.heap ve cleared }
    let v := (readE st.heap ve).version
    let st :=
      match st.availDef.lookup pe with
      | none => st
      | some ade =>
        match ade.lookup v with
        | none => st  -- ADE[V] = VE on the copy: the install is dropped
        | some dv =>
          if ctx.dominates ((st.vexprToInst.lookup dv).getD 0)
              ((st.vexprToInst.lookup ve).getD 0) then
            st        -- ADE[V] = VE on the copy: the install is dropped
          else if isBasicClassof (readE st.heap dv).etype then
            let saved := { readE st.heap dv with save := true }
            let st := { st with heap := writeE st.heap dv saved }
            let reloaded := { readE st.heap ve with reload := true }
            { st with heap := writeE st.heap ve reloaded }
          else st
    if isTerminator I.op then finalizeTermTail st b else st

/-- STEP 5, `FinalizeVisit` over one block. -/
def finalizeVisit (ctx : PassCtx) (st : PState) (b : Block) : PState :=
  b.insts.foldl (fun st I => finalizeRealStep ctx st b I) (finalizeFactors st b)

/-- The stats counters declared by the `STATISTIC` macros at the top of
SSAPRE.cpp.  No statement of the pass increments any of them. -/
structure Stats where
  saved : Nat := 0
  reloaded : Nat := 0
  inserted : Nat := 0
  deleted : Nat := 0
  blocksAdded : Nat := 0
deriving DecidableEq, Repr

/-- The mutable function: its blocks with their instruction lists. -/
abbrev FuncBlocks := List Block

/-- `Value::hasNUses` support: uses of instruction `iid` among the
operands of the current function body. -/
def countUses (blocks : FuncBlocks) (iid : Nat) : Nat :=
  blocks.foldl (fun n b => b.insts.foldl (fun n I =>
    n + I.operands.countP (fun o => match o with
      | .inst i _ => i == iid
      | _ => false)) n) 0

/-- `replaceAllUsesWith`: every operand naming `oldId` now names
`newId`. -/
def rauw (blocks : FuncBlocks) (oldId newId : Nat) : FuncBlocks :=
  blocks.map (fun b => { b with insts := b.insts.map (fun I =>
    { I with operands := I.operands.map (fun o => match o with
        | .inst i a => if i == oldId then Value.inst newId newId else Value.inst i a
        | o2 => o2) }) })

/-- `I->eraseFromParent()` over the kill list. -/
def eraseKilled (blocks : FuncBlocks) (kill : List Nat) : FuncBlocks :=
  blocks.map (fun b => { b with insts := b.insts.filter (fun I => !(kill.contains I.id)) })

/-- Insert an instruction just before the block terminator
(`IRBuilder<> Builder(B->getTerminator())`). -/
def insertBeforeTerm (blocks : FuncBlocks) (bid : Nat) (newI : Inst) : FuncBlocks :=
  blocks.map (fun b =>
    if b.id == bid then
      { b with insts := b.insts.take (b.insts.length - 1) ++ [newI]
                          ++ b.insts.drop (b.insts.length - 1) }
    else b)

/-- The walking state of STEP 6. -/
structure CMState where
  func : FuncBlocks
  st : PState
  counters : List (Ptr × Nat)
  sm : StackMap
  changed : Bool
deriving Repr

/-- STEP 6 terminator visit: refresh each successor factor's slot for this
block from the top of its prototype's stack (⊥ when empty). -/
def cmTermVisit (cms : CMState) (b : Block) : Except String CMState :=
  b.succs.foldlM (fun cms s =>
    ((cms.st.blockToFactors.lookup s).getD []).foldlM (fun (cms : CMState) f => do
      let fObj := readE cms.st.heap f
      let ves := stackOf cms.sm fObj.pe
      match getPredIndex fObj b.id with
      | none => throw "assert PI != -1UL failed"
      | some pi =>
        let slotVal : Option Ptr := match ves.head? with
          | none => some bexprPtr
          | some t => some t.2
        let fObj2 := { fObj with fversions := fObj.fversions.set pi slotVal }
        pure { cms with st := { cms.st with heap := writeE cms.st.heap f fObj2 } }) cms) cms

/-- STEP 6 instruction loop of one block: `Save` occurrences stay and are
pushed; `Reload` occurrences redirect their uses (and any factor slot
referencing them) to the stack top, which is asserted non-null and saved;
anything else is asserted use-free and killed. -/
def cmInsts (b : Block) : List Inst → CMState → Except String CMState
  | [], cms => pure cms
  | I :: rest, cms => do
    if isTerminator I.op then cmTermVisit cms b
    else
      let ve := (cms.st.instToVExpr.lookup I.id).getD 0
      let pe := (cms.st.vexprToPExpr.lookup ve).getD 0
      if isIgnoredClassof (readE cms.st.heap ve).etype
          || isUnknownClassof (readE cms.st.heap ve).etype then
        cmInsts b rest cms
      else
        let sdfs := (cms.st.instrSDFS.lookup I.id).getD 0
        let cms := { cms with sm := backtrace cms.sm sdfs }
        if (readE cms.st.heap ve).save then
          cmInsts b rest { cms with sm := aset cms.sm pe ((sdfs, ve) :: stackOf cms.sm pe) }
        else if (readE cms.st.heap ve).reload then
          match (stackOf cms.sm pe).head? with
          | none => throw "assert VESTop nonnull failed"
          | some t =>
            if !(readE cms.st.heap t.2).save then throw "assert VESTop saved failed"
            else
              let ri := (cms.st.vexprToInst.lookup t.2).getD 0
              let func := rauw cms.func I.id ri
              -- rewrite factor slots that referenced this occurrence
              let heap := cms.st.fexprs.foldl (fun h f =>
                match getVExprIndex (readE h f) ve with
                | none => h
                | some i =>
                  writeE h f { readE h f with fversions := (readE h f).fversions.set i (some t.2) }) cms.st.heap
              cmInsts b rest { cms with func := func,
                                        st := { cms.st with heap := heap },
                                        changed := true }
        else
          if countUses cms.func I.id != 0 then
            throw "assert hasNUses(0) failed: erased occurrence still has uses"
          else
            cmInsts b rest { cms with st := { cms.st with killList := cms.st.killList ++ [I.id] },
                                      changed := true }

/-- STEP 6 PHI materialization: for every factor whose operands are live
(factors or saved occurrences, never mixed with deleted ones), build an IR
φ at its block drawing each incoming value from the prototype's current
stack top.  A fresh φ instruction is given id `phiIdBase + factor
address`. -/
def phiIdBase : Nat := 1000000

def phiInsertion (cms : CMState) : Except String CMState :=
  cms.st.blockToFactors.foldlM (fun cms ent =>
    ent.2.foldlM (fun (cms : CMState) f => do
      let fObj := readE cms.st.heap f
      let flags := fObj.fversions.foldl (fun (fl : Bool × Bool × Bool) o =>
        let (hasFactors, hasSaved, hasDeleted) := fl
        let oObj := (o.map (readE cms.st.heap)).getD default
        if isFactorClassof oObj.etype then (true, hasSaved, hasDeleted)
        else (hasFactors, hasSaved || oObj.save, hasDeleted || !oObj.save)) (false, false, false)
      let (hasFactors, hasSaved, hasDeleted) := flags
      if hasFactors || hasSaved then
        if hasDeleted then throw "assert not hasDeleted failed"
        else do
          let incoming ← (List.range fObj.fversions.length).mapM (fun _ => do
            match (stackOf cms.sm fObj.pe).head? with
            | none => throw "assert VES nonempty failed"
            | some t => pure (Value.inst ((cms.st.vexprToInst.lookup t.2).getD 0)
                                         ((cms.st.vexprToInst.lookup t.2).getD 0)))
          let phi : Inst := { id := phiIdBase + f, op := .phi, operands := incoming,
                              ty := (readE cms.st.heap fObj.pe).vtype }
          pure { cms with func := insertBeforeTerm cms.func ent.1 phi, changed := true }
      else pure cms) cms) cms

/-- STEP 6, `CodeMotion`: the RPO walk, the kill sweep, then φ
insertion. -/
def codeMotion (ctx : PassCtx) (st : PState) : Except String CMState := do
  let counters := st.pexprToInsts.map (fun ent => (ent.1, 1))
  let cms : CMState := { func := ctx.rpot, st := st, counters := counters,
                         sm := [], changed := false }
  let cms ← ctx.rpot.foldlM (fun (cms : CMState) b => do
    let fsdfs := match b.insts.head? with
      | some I => (cms.st.instrSDFS.lookup I.id).getD 0
      | none => 0
    -- factor versioning and the FE-keyed stack push, as in the source
    let cms := ((cms.st.blockToFactors.lookup b.id).getD []).foldl (fun cms fe =>
      let pePtr := (readE cms.st.heap fe).pe
      let c := (cms.counters.lookup pePtr).getD 0
      let fe2 := { readE cms.st.heap fe with version := Int.ofNat c }
      { cms with st := { cms.st with heap := writeE cms.st.heap fe fe2 },
                 counters := aset cms.counters pePtr (c + 1),
                 sm := aset cms.sm fe ((fsdfs, fe) :: stackOf cms.sm fe) }) cms
    cmInsts b b.insts cms) cms
  let cms := { cms with func := eraseKilled cms.func cms.st.killList }
  phiInsertion cms

/-- The result of one `runImpl` invocation. -/
structure RunResult where
  func : FuncBlocks
  st : PState
  changed : Bool
  stats : Stats
deriving Repr

/-- `SSAPRE::runImpl`: expression collection (with the still-empty DFS
numbering), the two dominator-tree sorts and numberings, then Steps 1-6.
The `STATISTIC` counters are never incremented anywhere in the pass, so
the result carries them unchanged from their zero initialization. -/
def runImpl (ctx : PassCtx) (dt : DomTree) : Except String RunResult := do
  let st : PState := {}
  let st := initCollect ctx.nargs ctx.oracle ctx.rpot st
  let ord := rpoOrdering ctx.rpot
  let n := ctx.rpot.length
  let dfsBlocks := (domDFS dt.children (fun a b => decide (ord a ≤ ord b)) n dt.root).map (blockOf ctx)
  let st := { st with instrDFS := assignDFSNumbers dfsBlocks }
  let sdfsBlocks := (domDFS dt.children (fun a b => decide (ord b ≤ ord a)) n dt.root).map (blockOf ctx)
  let st := { st with instrSDFS := assignDFSNumbers sdfsBlocks }
  let st := factorInsertion ctx st
  let st := rename ctx st
  let st := { st with heap := downSafety st.heap st.fexprs }
  let st := willBeAvail st
  let st := ctx.rpot.foldl (fun st b => finalizeVisit ctx st b) st
  let cms ← codeMotion ctx st
  pure { func := cms.func, st := cms.st, changed := cms.changed, stats := {} }

/-!
The spec's "classic diamond PRE" scenario: blocks `A -> (B, C) -> D` with
`B: t1 = x + y` and `D: t2 = x + y` (x, y the function arguments).
`rpot`, the dominator tree, the per-block dominance query and the IDF of
this CFG are supplied concretely.
-/

def brA : Inst := { id := 10, op := .br }
def t1I : Inst := { id := 11, op := .add, operands := [xArg, yArg], ty := 7 }
def brB : Inst := { id := 12, op := .br }
def brC : Inst := { id := 13, op := .br }
def t2I : Inst := { id := 14, op := .add, operands := [xArg, yArg], ty := 7 }
def retD : Inst := { id := 15, op := .ret }

/-- The same diamond, but `D` returns `t2`, so `t2`'s value is used. -/
def retD2 : Inst := { id := 15, op := .ret, operands := [Value.inst 14 14] }

def blockA : Block := { id := 0, insts := [brA], succs := [1, 2], preds := [] }
def blockB : Block := { id := 1, insts := [t1I, brB], succs := [3], preds := [0] }
def blockC : Block := { id := 2, insts := [brC], succs := [3], preds := [0] }
def blockD : Block := { id := 3, insts := [t2I, retD], succs := [], preds := [1, 2] }
def blockD2 : Block := { id := 3, insts := [t2I, retD2], succs := [], preds := [1, 2] }

def diamondDT : DomTree :=
  { root := 0, children := fun b => if b == 0 then [1, 2, 3] else [] }

/-- The forward iterated dominance frontier of this CFG: the only join is
`D`, reached from defs in `B` or `C`; `DF(A) = DF(D) = {}`. -/
def diamondIDF : List Nat → List Nat := fun bs =>
  if bs.contains 1 || bs.contains 2 then [3] else []

def diamondInstBlock : Nat → Nat := fun i =>
  if i == 10 then 0 else if i == 11 || i == 12 then 1
  else if i == 13 then 2 else 3

/-- `DT->dominates` on the diamond's instructions: `A` dominates every
block, every other block only itself; within a block, program order. -/
def diamondDominates : Nat → Nat → Bool := fun a b =>
  let ba := diamondInstBlock a
  let bb := diamondInstBlock b
  if ba == bb then decide (a ≤ b) else ba == 0

def diamondCtx : PassCtx :=
  { nargs := 2, oracle := oracle0, rpot := [blockA, blockC, blockB, blockD],
    dominates := diamondDominates, idf := diamondIDF }

def diamondCtx2 : PassCtx :=
  { nargs := 2, oracle := oracle0, rpot := [blockA, blockC, blockB, blockD2],
    dominates := diamondDominates, idf := diamondIDF }

def diamondRun : Except String RunResult := runImpl diamondCtx diamondDT

def diamondRun2 : Except String RunResult := runImpl diamondCtx2 diamondDT

-- Concrete state for C4's witness: a prototype at address 1, a factor for
-- it at address 2.
def c4PeObj : ExprObj := { etype := .basic, opcode := 11 }

def c4FactorObj : ExprObj :=
  { etype := .factor, pe := 1, bb := 3, fpreds := [1, 2],
    fversions := [none, none], hasRealUse := [false, false] }

def c4State : PState := { heap := [bexprObj, c4PeObj, c4FactorObj], pexprToRC := [(1, 0)] }

-- Concrete state for C5: two occurrences of one prototype (address 1),
-- version 0, in two sibling blocks; `AvailDef[PE]` already holds a factor
-- entry for version 1, so the prototype is present but version 0 is not.
def c5PeObj : ExprObj := { etype := .basic, opcode := 11 }

def c5VEa : ExprObj := { etype := .basic, opcode := 11, version := 0 }

def c5VEb : ExprObj := { etype := .basic, opcode := 11, version := 0 }

def c5Factor : ExprObj := { etype := .factor, pe := 1, version := 1 }

def c5Ta : Inst := { id := 21, op := .add, operands := [xArg, yArg], ty := 7 }

def c5Tb : Inst := { id := 22, op := .add, operands := [xArg, yArg], ty := 7 }

def c5BlockB : Block := { id := 0, insts := [c5Ta] }

def c5BlockC : Block := { id := 1, insts := [c5Tb] }

def c5Ctx : PassCtx := { nargs := 2, rpot := [c5BlockB, c5BlockC] }

def c5State : PState :=
  { heap := [bexprObj, c5PeObj, c5VEa, c5VEb, c5Factor],
    instToVExpr := [(21, 2), (22, 3)],
    vexprToInst := [(2, 21), (3, 22)],
    vexprToPExpr := [(2, 1), (3, 1)],
    availDef := [(1, [(1, 4)])] }

def c5After : PState := finalizeVisit c5Ctx (finalizeVisit c5Ctx c5State c5BlockB) c5BlockC

theorem readE_oob (h : Heap) (p : Ptr) (hp : h.length ≤ p) : readE h p = default :=
  List.getD_eq_default _ _ hp

theorem writeE_length (h : Heap) (p : Ptr) (e : ExprObj) :
    (writeE h p e).length = h.length :=
  List.length_set ..

theorem readE_writeE (h : Heap) (p q : Ptr) (e : ExprObj) :
    readE (writeE h p e) q = if p = q ∧ p < h.length then e else readE h q := by
  simp only [readE, writeE, List.getD_eq_getElem?_getD, List.getElem?_set]
  by_cases hpq : p = q
  · subst hpq
    by_cases hp : p < h.length
    · simp [hp]
    · simp [hp, List.getElem?_eq_none (le_of_not_lt hp)]
  · simp [hpq]

/-- A factor-classified object is a real heap cell (the out-of-range
default has `ET_Base`). -/
theorem factor_lt_length (h : Heap) (p : Ptr)
    (hp : isFactorClassof (readE h p).etype = true) : p < h.length := by
  by_contra hlt
  rw [readE_oob h p (le_of_not_lt hlt)] at hp
  exact absurd hp (by decide)

theorem dsPost_refl (h : Heap) : DSPost h h :=
  ⟨⟨rfl, fun _ => ⟨rfl, rfl, rfl⟩⟩, fun _ hp => hp⟩

theorem dsPost_comp {h1 h2 h3 : Heap} (a : DSPost h1 h2) (b : DSPost h2 h3) :
    DSPost h1 h3 := by
  obtain ⟨⟨al, af⟩, am⟩ := a
  obtain ⟨⟨bl, bf⟩, bm⟩ := b
  refine ⟨⟨bl.trans al, fun p => ?_⟩, fun p hp => bm p (am p hp)⟩
  obtain ⟨a1, a2, a3⟩ := af p
  obtain ⟨b1, b2, b3⟩ := bf p
  exact ⟨b1.trans a1, b2.trans a2, b3.trans a3⟩

theorem dsPost_write (h : Heap) (p : Ptr) :
    DSPost h (writeE h p { readE h p with downSafe := false }) := by
  constructor
  · refine ⟨writeE_length .., fun q => ?_⟩
    rw [readE_writeE]
    split
    · next hc => rw [hc.1]; exact ⟨rfl, rfl, rfl⟩
    · exact ⟨rfl, rfl, rfl⟩
  · intro q hq
    rw [readE_writeE]
    split
    · rfl
    · exact hq

theorem resetDSSlots_nil (fuel : Nat) (h : Heap) (fp : Ptr) :
    resetDSSlots fuel h fp [] = h := rfl

theorem resetDSSlots_cons (fuel : Nat) (h : Heap) (fp : Ptr) (sl : Nat) (rest : List Nat) :
    resetDSSlots fuel h fp (sl :: rest)
      = resetDSSlots fuel (resetDownSafety fuel h fp sl) fp rest := rfl

theorem resetDownSafety_succ (fuel : Nat) (h : Heap) (fp : Ptr) (sl : Nat) :
    resetDownSafety (fuel + 1) h fp sl =
      (if (readE h fp).hasRealUse.getD sl false then h
       else
        match (readE h fp).fversions.getD sl none with
        | none => h
        | some ep =>
          if isFactorClassof (readE h ep).etype then
            if (readE h ep).downSafe then
              resetDSSlots fuel (writeE h ep { readE h ep with downSafe := false }) ep
                (List.range (readE h ep).fversions.length)
            else h
          else h) := rfl

theorem resetDS_post (fuel : Nat) :
    (∀ h fp sl, DSPost h (resetDownSafety fuel h fp sl)) ∧
    (∀ slots h fp, DSPost h (resetDSSlots fuel h fp slots)) := by
  induction fuel with
  | zero =>
    have A : ∀ (h : Heap) (fp : Ptr) (sl : Nat), DSPost h (resetDownSafety 0 h fp sl) := by
      intro h fp sl
      simp only [resetDownSafety]
      exact dsPost_refl h
    refine ⟨A, ?_⟩
    intro slots
    induction slots with
    | nil => intro h fp; rw [resetDSSlots_nil]; exact dsPost_refl h
    | cons sl rest ih =>
      intro h fp
      rw [resetDSSlots_cons]
      exact (A h fp sl) |> fun a => dsPost_comp a (ih _ fp)
  | succ fuel ih =>
    have A : ∀ (h : Heap) (fp : Ptr) (sl : Nat),
        DSPost h (resetDownSafety (fuel + 1) h fp sl) := by
      intro h fp sl
      rw [resetDownSafety_succ]
      split
      · exact dsPost_refl h
      · split
        · exact dsPost_refl h
        · next ep heq =>
          split
          · split
            · exact dsPost_comp (dsPost_write h ep) (ih.2 _ _ _)
            · exact dsPost_refl h
          · exact dsPost_refl h
    refine ⟨A, ?_⟩
    intro slots
    induction slots with
    | nil => intro h fp; rw [resetDSSlots_nil]; exact dsPost_refl h
    | cons sl rest ihs =>
      intro h fp
      rw [resetDSSlots_cons]
      exact (A h fp sl) |> fun a => dsPost_comp a (ihs _ fp)

theorem downSafetyLoop_post (fuel : Nat) (fexprs : List Ptr) :
    ∀ h, DSPost h (downSafetyLoop fuel h fexprs) := by
  induction fexprs with
  | nil => intro h; simp only [downSafetyLoop]; exact dsPost_refl h
  | cons fp rest ih =>
    intro h
    simp only [downSafetyLoop]
    split
    · exact ih h
    · exact dsPost_comp ((resetDS_post fuel).2 _ h fp) (ih _)


theorem slotClosed_skel {h h2 hF : Heap} (s : sameSkeleton h h2) {fp : Ptr} {sl : Nat}
    (hc : slotClosed h2 hF fp sl) : slotClosed h hF fp sl := by
  intro ep e1 e2 e3
  exact hc ep (by rw [(s.2 fp).1]; exact e1) (by rw [(s.2 fp).2.1]; exact e2)
    (by rw [(s.2 ep).2.2]; exact e3)

theorem slotClosed_mono {h0 h1 h2 : Heap} (m : DSPost h1 h2) {fp : Ptr} {sl : Nat}
    (hc : slotClosed h0 h1 fp sl) : slotClosed h0 h2 fp sl :=
  fun ep e1 e2 e3 => m.2 ep (hc ep e1 e2 e3)

theorem slotClosed_oob {h0 hF : Heap} {fp : Ptr} {sl : Nat}
    (hsl : (readE h0 fp).fversions.length ≤ sl) : slotClosed h0 hF fp sl := by
  intro ep he _ _
  rw [List.getD_eq_default _ _ hsl] at he
  exact absurd he (by simp)

theorem dsEdge_skel {h h' : Heap} (s : sameSkeleton h h') {f g : Ptr}
    (e : dsEdge h' f g) : dsEdge h f g := by
  obtain ⟨efac, i, ever, ehru⟩ := e
  refine ⟨by rw [← (s.2 g).2.2]; exact efac, i, ?_, ?_⟩
  · rw [← (s.2 f).1]; exact ever
  · rw [← (s.2 f).2.1]; exact ehru

theorem trueFactors_le {h h' : Heap} (m : DSPost h h') : trueFactors h' ≤ trueFactors h := by
  apply Finset.card_le_card
  intro p hp
  simp only [trueFactorsSet, Finset.mem_filter, Finset.mem_range] at hp ⊢
  obtain ⟨hlen, hfac, hds⟩ := hp
  refine ⟨by rw [← m.1.1]; exact hlen, by rw [← (m.1.2 p).2.2]; exact hfac, ?_⟩
  by_contra hfalse
  rw [Bool.not_eq_true] at hfalse
  have hc := m.2 p hfalse
  rw [hc] at hds
  simp at hds

theorem trueFactors_write_clear {h : Heap} {ep : Ptr}
    (hfac : isFactorClassof (readE h ep).etype = true)
    (hds : (readE h ep).downSafe = true) :
    trueFactors (writeE h ep { readE h ep with downSafe := false }) < trueFactors h := by
  have hlt : ep < h.length := factor_lt_length h ep hfac
  have hmem : ep ∈ trueFactorsSet h := by
    simp only [trueFactorsSet, Finset.mem_filter, Finset.mem_range]
    exact ⟨hlt, hfac, hds⟩
  have hset : trueFactorsSet (writeE h ep { readE h ep with downSafe := false })
      = (trueFactorsSet h).erase ep := by
    ext q
    simp only [trueFactorsSet, Finset.mem_filter, Finset.mem_range, Finset.mem_erase,
      writeE_length]
    rw [readE_writeE]
    by_cases hq : ep = q
    · subst hq
      simp [hlt]
    · simp only [hq, false_and, if_false]
      constructor
      · rintro ⟨h1, h2, h3⟩
        exact ⟨fun hqe => hq hqe.symm, h1, h2, h3⟩
      · rintro ⟨_, h1, h2, h3⟩
        exact ⟨h1, h2, h3⟩
  rw [trueFactors, hset, Finset.card_erase_of_mem hmem]
  exact Nat.sub_lt (Finset.card_pos.mpr ⟨ep, hmem⟩) one_pos


theorem resetDS_closed (fuel : Nat) :
    (∀ h fp sl, trueFactors h < fuel →
      slotClosed h (resetDownSafety fuel h fp sl) fp sl ∧
      ClosedPost h (resetDownSafety fuel h fp sl)) ∧
    (∀ slots h fp, trueFactors h < fuel →
      (∀ sl ∈ slots, slotClosed h (resetDSSlots fuel h fp slots) fp sl) ∧
      ClosedPost h (resetDSSlots fuel h fp slots)) := by
  induction fuel with
  | zero =>
    exact ⟨fun h fp sl hf => absurd hf (by omega),
           fun slots h fp hf => absurd hf (by omega)⟩
  | succ fuel ih =>
    have A : ∀ h fp sl, trueFactors h < fuel + 1 →
        slotClosed h (resetDownSafety (fuel + 1) h fp sl) fp sl ∧
        ClosedPost h (resetDownSafety (fuel + 1) h fp sl) := by
      intro h fp sl hf
      rw [resetDownSafety_succ]
      split
      · next hhru =>
        refine ⟨fun ep e1 e2 _ => absurd e2 (by rw [hhru]; simp),
                fun g g1 g2 => absurd g2 (by rw [g1]; simp)⟩
      · next hhru =>
        split
        · next heq =>
          refine ⟨fun ep e1 _ _ => absurd e1 (by rw [heq]; simp),
                  fun g g1 g2 => absurd g2 (by rw [g1]; simp)⟩
        · next ep heq =>
          split
          · next hfac =>
            split
            · next hds =>
              -- the clearing case
              set h2 := writeE h ep { readE h ep with downSafe := false } with hh2
              have hlt : ep < h.length := factor_lt_length h ep hfac
              have hskel : DSPost h h2 := dsPost_write h ep
              have hds2 : (readE h2 ep).downSafe = false := by
                rw [hh2, readE_writeE]
                simp [hlt]
              have hf2 : trueFactors h2 < fuel := by
                have hwc : trueFactors h2 < trueFactors h := by
                  rw [hh2]
                  exact trueFactors_write_clear hfac hds
                omega
              have post2 := (resetDS_post fuel).2
                  (List.range (readE h ep).fversions.length) h2 ep
              have ihB := ih.2 (List.range (readE h ep).fversions.length) h2 ep hf2
              constructor
              · intro ep' e1 _ _
                rw [heq] at e1
                cases e1
                exact post2.2 ep hds2
              · intro g g1 g2 i
                by_cases hg : g = ep
                · subst hg
                  by_cases hi : i < (readE h g).fversions.length
                  · exact slotClosed_skel hskel.1
                      (ihB.1 i (List.mem_range.mpr hi))
                  · exact slotClosed_oob (le_of_not_lt hi)
                · have g1' : (readE h2 g).downSafe = true := by
                    rw [hh2, readE_writeE]
                    simp only [hg]
                    split
                    · next hc => exact absurd hc.1 (fun hc1 => hg hc1.symm)
                    · exact g1
                  exact slotClosed_skel hskel.1 (ihB.2 g g1' g2 i)
            · next hdst =>
              refine ⟨fun ep' e1 _ _ => ?_, fun g g1 g2 => absurd g2 (by rw [g1]; simp)⟩
              rw [heq] at e1
              cases e1
              simpa using hdst
          · next hfac =>
            refine ⟨fun ep' e1 _ e3 => ?_, fun g g1 g2 => absurd g2 (by rw [g1]; simp)⟩
            rw [heq] at e1
            cases e1
            exact absurd e3 hfac
    refine ⟨A, ?_⟩
    intro slots
    induction slots with
    | nil =>
      intro h fp hf
      rw [resetDSSlots_nil]
      exact ⟨fun sl hsl => absurd hsl (List.not_mem_nil sl),
             fun g g1 g2 => absurd g2 (by rw [g1]; simp)⟩
    | cons sl rest ihs =>
      intro h fp hf
      rw [resetDSSlots_cons]
      set h1 := resetDownSafety (fuel + 1) h fp sl with hh1
      have hpost1 : DSPost h h1 := (resetDS_post (fuel + 1)).1 h fp sl
      have hf1 : trueFactors h1 < fuel + 1 := lt_of_le_of_lt (trueFactors_le hpost1) hf
      have hrest := ihs h1 fp hf1
      have hpostR : DSPost h1 (resetDSSlots (fuel + 1) h1 fp rest) :=
        (resetDS_post (fuel + 1)).2 rest h1 fp
      constructor
      · intro sl' hsl'
        rcases List.mem_cons.mp hsl' with hEq | hMem
        · subst hEq
          exact slotClosed_mono hpostR ((A h fp sl' hf).1)
        · exact slotClosed_skel hpost1.1 (hrest.1 sl' hMem)
      · intro g g1 g2 i
        by_cases hg1 : (readE h1 g).downSafe = true
        · exact slotClosed_skel hpost1.1 (hrest.2 g hg1 g2 i)
        · rw [Bool.not_eq_true] at hg1
          exact slotClosed_mono hpostR ((A h fp sl hf).2 g g1 hg1 i)


theorem resetDS_sound (fuel : Nat) :
    (∀ h fp sl p, (readE h fp).downSafe = false →
      (readE (resetDownSafety fuel h fp sl) p).downSafe = false →
      (readE h p).downSafe = false ∨ Relation.ReflTransGen (dsEdge h) fp p) ∧
    (∀ slots h fp p, (readE h fp).downSafe = false →
      (readE (resetDSSlots fuel h fp slots) p).downSafe = false →
      (readE h p).downSafe = false ∨ Relation.ReflTransGen (dsEdge h) fp p) := by
  induction fuel with
  | zero =>
    have A : ∀ (h : Heap) (fp : Ptr) (sl : Nat) (p : Ptr), (readE h fp).downSafe = false →
        (readE (resetDownSafety 0 h fp sl) p).downSafe = false →
        (readE h p).downSafe = false ∨ Relation.ReflTransGen (dsEdge h) fp p := by
      intro h fp sl p _ hp
      simp only [resetDownSafety] at hp
      exact Or.inl hp
    refine ⟨A, ?_⟩
    intro slots
    induction slots with
    | nil =>
      intro h fp p _ hp
      rw [resetDSSlots_nil] at hp
      exact Or.inl hp
    | cons sl rest ihs =>
      intro h fp p hfp hp
      rw [resetDSSlots_cons] at hp
      simp only [resetDownSafety] at hp
      exact ihs h fp p hfp hp
  | succ fuel ih =>
    have A : ∀ (h : Heap) (fp : Ptr) (sl : Nat) (p : Ptr), (readE h fp).downSafe = false →
        (readE (resetDownSafety (fuel + 1) h fp sl) p).downSafe = false →
        (readE h p).downSafe = false ∨ Relation.ReflTransGen (dsEdge h) fp p := by
      intro h fp sl p hfp hp
      rw [resetDownSafety_succ] at hp
      split at hp
      · exact Or.inl hp
      · next hhru =>
        split at hp
        · exact Or.inl hp
        · next ep heq =>
          split at hp
          · next hfac =>
            split at hp
            · next hds =>
              set h2 := writeE h ep { readE h ep with downSafe := false } with hh2
              have hskel : DSPost h h2 := dsPost_write h ep
              have hlt : ep < h.length := factor_lt_length h ep hfac
              have hedge : dsEdge h fp ep :=
                ⟨hfac, sl, heq, by simpa using hhru⟩
              have hds2 : (readE h2 ep).downSafe = false := by
                rw [hh2, readE_writeE]
                simp [hlt]
              rcases ih.2 _ h2 ep p hds2 hp with h2p | hrtg
              · by_cases hpe : p = ep
                · subst hpe
                  exact Or.inr (Relation.ReflTransGen.single hedge)
                · left
                  rw [hh2, readE_writeE] at h2p
                  simp only [hpe] at h2p
                  split at h2p
                  · next hc => exact absurd hc.1 (fun hc1 => hpe hc1.symm)
                  · exact h2p
              · refine Or.inr (Relation.ReflTransGen.head hedge ?_)
                exact hrtg.mono (fun a b e => dsEdge_skel hskel.1 e)
            · exact Or.inl hp
          · exact Or.inl hp
    refine ⟨A, ?_⟩
    intro slots
    induction slots with
    | nil =>
      intro h fp p _ hp
      rw [resetDSSlots_nil] at hp
      exact Or.inl hp
    | cons sl rest ihs =>
      intro h fp p hfp hp
      rw [resetDSSlots_cons] at hp
      set h1 := resetDownSafety (fuel + 1) h fp sl with hh1
      have hpost1 : DSPost h h1 := (resetDS_post (fuel + 1)).1 h fp sl
      have hfp1 : (readE h1 fp).downSafe = false := hpost1.2 fp hfp
      rcases ihs h1 fp p hfp1 hp with h1p | hrtg
      · exact A h fp sl p hfp h1p
      · exact Or.inr (hrtg.mono (fun a b e => dsEdge_skel hpost1.1 e))

theorem downSafetyLoop_sound (fuel : Nat) (fexprs : List Ptr) :
    ∀ h p, (readE (downSafetyLoop fuel h fexprs) p).downSafe = false →
      (readE h p).downSafe = false ∨
      ∃ f, (readE h f).downSafe = false ∧ Relation.ReflTransGen (dsEdge h) f p := by
  induction fexprs with
  | nil =>
    intro h p hp
    simp only [downSafetyLoop] at hp
    exact Or.inl hp
  | cons fp rest ih =>
    intro h p hp
    simp only [downSafetyLoop] at hp
    by_cases hfp : (readE h fp).downSafe = true
    · rw [if_pos hfp] at hp
      exact ih h p hp
    · rw [if_neg hfp] at hp
      rw [Bool.not_eq_true] at hfp
      set h1 := resetDSSlots fuel h fp (List.range (readE h fp).fversions.length) with hh1
      have hskel : DSPost h h1 := (resetDS_post fuel).2 _ h fp
      rcases ih h1 p hp with h1p | ⟨f, hf, hrtg⟩
      · rcases (resetDS_sound fuel).2 _ h fp p hfp h1p with hinl | hrtg
        · exact Or.inl hinl
        · exact Or.inr ⟨fp, hfp, hrtg⟩
      · rcases (resetDS_sound fuel).2 _ h fp f hfp hf with hinl | hrtg2
        · exact Or.inr ⟨f, hinl, hrtg.mono (fun a b e => dsEdge_skel hskel.1 e)⟩
        · exact Or.inr ⟨fp, hfp,
            hrtg2.trans (hrtg.mono (fun a b e => dsEdge_skel hskel.1 e))⟩

theorem downSafetyLoop_complete (fuel : Nat) (fexprs : List Ptr) :
    ∀ h, trueFactors h < fuel →
      ∀ x, (readE (downSafetyLoop fuel h fexprs) x).downSafe = false →
        (∀ i, slotClosed h (downSafetyLoop fuel h fexprs) x i) ∨
        ((readE h x).downSafe = false ∧ x ∉ fexprs) := by
  induction fexprs with
  | nil =>
    intro h _ x hx
    right
    refine ⟨by simpa only [downSafetyLoop] using hx, List.not_mem_nil x⟩
  | cons fp rest ih =>
    intro h hf x hx
    simp only [downSafetyLoop] at hx ⊢
    by_cases hfp : (readE h fp).downSafe = true
    · rw [if_pos hfp] at hx ⊢
      rcases ih h hf x hx with hcl | ⟨hx0, hnr⟩
      · exact Or.inl hcl
      · refine Or.inr ⟨hx0, ?_⟩
        intro hmem
        rcases List.mem_cons.mp hmem with hEq | hMem
        · rw [hEq] at hx0
          rw [hx0] at hfp
          simp at hfp
        · exact hnr hMem
    · rw [if_neg hfp] at hx ⊢
      rw [Bool.not_eq_true] at hfp
      set h1 := resetDSSlots fuel h fp (List.range (readE h fp).fversions.length) with hh1
      have hskel : DSPost h h1 := (resetDS_post fuel).2 _ h fp
      have hf1 : trueFactors h1 < fuel := lt_of_le_of_lt (trueFactors_le hskel) hf
      have hpostR : DSPost h1 (downSafetyLoop fuel h1 rest) := downSafetyLoop_post fuel rest h1
      rcases ih h1 hf1 x hx with hcl | ⟨hx1, hnr⟩
      · exact Or.inl (fun i => slotClosed_skel hskel.1 (hcl i))
      · by_cases hx0 : (readE h x).downSafe = true
        · -- x was cleared by processing fp: its slots were recursed into
          have hcl2 := ((resetDS_closed fuel).2 _ h fp hf).2 x hx0 hx1
          exact Or.inl (fun i => slotClosed_mono hpostR (hcl2 i))
        · rw [Bool.not_eq_true] at hx0
          by_cases hxfp : x = fp
          · subst hxfp
            left
            intro i
            by_cases hi : i < (readE h x).fversions.length
            · exact slotClosed_mono hpostR
                (((resetDS_closed fuel).2 _ h x hf).1 i (List.mem_range.mpr hi))
            · exact slotClosed_oob (le_of_not_lt hi)
          · refine Or.inr ⟨hx0, ?_⟩
            intro hmem
            rcases List.mem_cons.mp hmem with hEq | hMem
            · exact hxfp hEq
            · exact hnr hMem


/-- C8: in the down-safety step, every factor `F` with `down_safe = false`
forces `down_safe = false` on every factor `G` it references through an
operand slot `i` — except when `F.has_real_use[i]` holds — and the
clearing is iterated transitively to a fixed point over all factors:
after `DownSafety()` a factor is non-down-safe exactly when it is
reachable along no-real-use factor operand edges from a factor that was
already non-down-safe, provided the iterated factor list `fexprs`
(`FExprs`) contains every initially non-down-safe object, as the claim's
"over all factors" assumes. -/
theorem c8_down_safety_propagation (h : Heap) (fexprs : List Ptr)
    (H : ∀ p, (readE h p).downSafe = false → p ∈ fexprs) (g : Ptr) :
    (readE (downSafety h fexprs) g).downSafe = false ↔
      ∃ f, (readE h f).downSafe = false ∧ Relation.ReflTransGen (dsEdge h) f g := by
  have hfuel : trueFactors h < h.length + 1 := by
    have hle : trueFactors h ≤ h.length :=
      le_trans (Finset.card_filter_le _ _) (le_of_eq (Finset.card_range _))
    omega
  constructor
  · intro hg
    rcases downSafetyLoop_sound (h.length + 1) fexprs h g hg with h0 | ⟨f, hf, hrtg⟩
    · exact ⟨g, h0, Relation.ReflTransGen.refl⟩
    · exact ⟨f, hf, hrtg⟩
  · rintro ⟨f, hf, hrtg⟩
    induction hrtg with
    | refl => exact (downSafetyLoop_post (h.length + 1) fexprs h).2 f hf
    | tail hxy hedge ihp =>
      rcases downSafetyLoop_complete (h.length + 1) fexprs h hfuel _ ihp with hcl | ⟨hb0, hnb⟩
      · obtain ⟨hfacg, i, hver, hhru⟩ := hedge
        exact hcl i _ hver hhru hfacg
      · exact absurd (H _ hb0) hnb

/-- Witness for C8 on the concrete two-factor heap: the propagation clears
the referenced factor at address 2. -/
theorem c8_down_safety_propagation_witness :
    (readE (downSafety dsHeapW [1]) 2).downSafe = false := by
  refine (c8_down_safety_propagation dsHeapW [1] ?_ 2).mpr
    ⟨1, by decide, Relation.ReflTransGen.single ⟨by decide, 0, by decide, by decide⟩⟩
  intro p hp
  match p with
  | 0 => exact absurd hp (by decide)
  | 1 => exact List.mem_singleton.mpr rfl
  | 2 => exact absurd hp (by decide)
  | (n + 3) =>
    rw [readE_oob dsHeapW (n + 3) (by simp [dsHeapW])] at hp
    exact absurd hp (by decide)


theorem lookup_aset {β : Type v} (m : List (Nat × β)) (k k2 : Nat) (v : β) :
    (aset m k v).lookup k2 = if k2 = k then some v else m.lookup k2 := by
  induction m with
  | nil =>
    simp only [aset, List.lookup]
    by_cases h : k2 = k
    · subst h; simp
    · simp [beq_eq_false_iff_ne.mpr h, h]
  | cons kv rest ih =>
    obtain ⟨k1, v1⟩ := kv
    simp only [aset]
    by_cases h1 : k1 = k
    · subst h1
      simp only [if_pos rfl, List.lookup]
      by_cases h : k2 = k1
      · subst h; simp
      · simp [beq_eq_false_iff_ne.mpr h, h]
    · rw [if_neg h1]
      by_cases h2 : k2 = k1
      · subst h2
        rw [if_neg h1]
        simp [List.lookup]
      · simp [List.lookup, beq_eq_false_iff_ne.mpr h2, ih]

theorem foldl_proj_const {α : Type u} {β : Type v} {γ : Type w} (proj : α → γ)
    (step : α → β → α) (hstep : ∀ a x, proj (step a x) = proj a) (l : List β) :
    ∀ a, proj (List.foldl step a l) = proj a := by
  induction l with
  | nil => intro a; rfl
  | cons x xs ih => intro a; rw [List.foldl_cons, ih, hstep]

theorem finalizeFactors_blockToInserts (st : PState) (b : Block) :
    (finalizeFactors st b).blockToInserts = st.blockToInserts := by
  unfold finalizeFactors
  apply foldl_proj_const
  intro a x
  dsimp only
  split <;> rfl

theorem finalizeRealStep_blockToInserts (ctx : PassCtx) (st : PState) (b : Block) (I : Inst) :
    (finalizeRealStep ctx st b I).blockToInserts = st.blockToInserts := by
  unfold finalizeRealStep
  dsimp only
  split
  · rfl
  · next hguard =>
    have hterm : isTerminator I.op = false := by
      by_contra hcon
      rw [Bool.not_eq_false] at hcon
      simp [hcon] at hguard
    rw [if_neg (by simp [hterm])]
    repeat' first
      | rfl
      | split

theorem finalizeVisit_blockToInserts (ctx : PassCtx) (st : PState) (b : Block) :
    (finalizeVisit ctx st b).blockToInserts = st.blockToInserts := by
  unfold finalizeVisit
  rw [foldl_proj_const PState.blockToInserts _
    (fun a I => finalizeRealStep_blockToInserts ctx a b I) b.insts (finalizeFactors st b)]
  exact finalizeFactors_blockToInserts st b

theorem finalizeTermTail_availDef (st : PState) (b : Block) :
    (finalizeTermTail st b).availDef = st.availDef := by
  unfold finalizeTermTail
  apply foldl_proj_const
  intro a s
  apply foldl_proj_const
  intro a2 f
  dsimp only
  repeat' first
    | rfl
    | split

theorem finalizeRealStep_availDef (ctx : PassCtx) (st : PState) (b : Block) (I : Inst) :
    (finalizeRealStep ctx st b I).availDef = st.availDef := by
  unfold finalizeRealStep
  dsimp only
  split
  · rfl
  · repeat' first
      | rfl
      | (rw [finalizeTermTail_availDef])
      | split

theorem finalizeVisit_availDef (ctx : PassCtx) (st : PState) (b : Block) :
    (finalizeVisit ctx st b).availDef = (finalizeFactors st b).availDef := by
  unfold finalizeVisit
  exact foldl_proj_const PState.availDef _
    (fun a I => finalizeRealStep_availDef ctx a b I) b.insts (finalizeFactors st b)

/-- C1: on the classic diamond the claim expects a computation of `x+y`
inserted in `C`, a φ at `D` joining `t1` and the insertion, `t2` rewritten
to the φ, and counters `inserted=1, saved=2, reloaded=1, deleted=1`.  The
pass actually changes the function by deleting both adds, inserts nothing
in `C` (block 2 keeps only its branch), emits no φ anywhere, records no
edge insert, and every observable counter stays 0 — the `STATISTIC`
counters are never incremented by any statement of the pass. -/
theorem c1_diamond_pre_not_performed :
    diamondRun.toOption.map (fun r =>
        (r.stats, r.changed, r.st.blockToInserts,
         r.func.map (fun blk => (blk.id, blk.insts.map Inst.id)),
         r.func.all (fun blk => blk.insts.all (fun I => I.op != .phi))))
      = some ({ saved := 0, reloaded := 0, inserted := 0, deleted := 0, blocksAdded := 0 },
              true, [], [(0, [10]), (2, [13]), (1, [12]), (3, [15])], true) := by
  rfl

/-- C3: the insert-on-edge recording of Step 5 is dead code — the
`FinalizeVisit` instruction loop `continue`s on every terminator before
reaching its `if (I.isTerminator())` tail — so `BlockToInserts` is left
untouched by every `FinalizeVisit` call, on every input; consequently no
edge insert is ever recorded, and in the diamond run nothing is
materialized at the end of any predecessor block (`CodeMotion` contains no
materialization of `BlockToInserts` at all). -/
theorem c3_insert_on_edge_never_recorded :
    (∀ (ctx : PassCtx) (st : PState) (b : Block),
        (finalizeVisit ctx st b).blockToInserts = st.blockToInserts) ∧
    diamondRun.toOption.map (fun r =>
        (r.st.blockToInserts, r.func.map (fun blk => (blk.id, blk.insts.map Inst.id))))
      = some ([], [(0, [10]), (2, [13]), (1, [12]), (3, [15])]) := by
  exact ⟨finalizeVisit_blockToInserts, rfl⟩

/-- C4: during renaming a factor is *not* pushed onto its prototype's
version stack: the source pushes onto `PExprToVExprStack[FE]` — the entry
keyed by the factor object's own address — so the prototype-keyed stack
(the one every reader consults) is unchanged, and the push lands on a
stack keyed by the factor itself. -/
theorem c4_factor_pushed_on_its_own_key (st : PState) (sm : StackMap) (fsdfs : Nat) (fe : Ptr)
    (hne : (readE st.heap fe).pe ≠ fe) :
    stackOf (renameBlockFactors st sm fsdfs [fe]).2 ((readE st.heap fe).pe)
        = stackOf sm ((readE st.heap fe).pe) ∧
    stackOf (renameBlockFactors st sm fsdfs [fe]).2 fe = (fsdfs, fe) :: stackOf sm fe := by
  unfold renameBlockFactors
  simp only [List.foldl_cons, List.foldl_nil]
  constructor
  · simp [stackOf, lookup_aset, hne]
  · simp [stackOf, lookup_aset]

/-- Witness for C4: a concrete factor (address 2, prototype address 1)
pushed during block entry; the prototype's stack stays empty. -/
theorem c4_factor_pushed_on_its_own_key_witness :
    stackOf (renameBlockFactors c4State [] 5 [2]).2 1 = [] ∧
    stackOf (renameBlockFactors c4State [] 5 [2]).2 2 = [(5, 2)] :=
  c4_factor_pushed_on_its_own_key c4State [] 5 2 (by decide)

/-- C5: the available-definition logic of `FinalizeVisit` copies the inner
map (`auto ADE = AvailDef[PE]`, by value), so the `ADE[V] = VE` installs
are lost: the instruction loop never changes `AvailDef` on any input, and
in the concrete two-sibling-block scenario (both occurrences version 0,
`AvailDef[PE]` present without a version-0 entry, neither occurrence
dominating the other) the claim's predicted install/save/reload never
happen — all four flags stay false and `AvailDef` is unchanged. -/
theorem c5_finalize_install_dropped :
    (∀ (ctx : PassCtx) (st : PState) (b : Block),
        (finalizeVisit ctx st b).availDef = (finalizeFactors st b).availDef) ∧
    (c5After.availDef = [(1, [(1, 4)])] ∧
     (readE c5After.heap 2).save = false ∧ (readE c5After.heap 2).reload = false ∧
     (readE c5After.heap 3).save = false ∧ (readE c5After.heap 3).reload = false) := by
  exact ⟨finalizeVisit_availDef, by decide⟩

/-- C9: idempotence fails to be well defined: on the diamond whose `ret`
uses `t2`, the pass reaches the `assert(I.hasNUses(0))` in `CodeMotion`
with `t2` neither saved nor reloaded yet still used, and aborts — `run(F)`
produces no output to run again (in assert-free builds it would erase a
still-used instruction). -/
theorem c9_run_aborts_on_used_redundancy :
    diamondRun2 = Except.error "assert hasNUses(0) failed: erased occurrence still has uses" := by
  rfl

/-- C2: for every real non-terminator instruction two expression objects
are built (a prototype `PE` and a versioned `VE` mapped 1:1 to the
instruction) — that part holds — but the claim that the prototype acts as
a map key grouping all syntactic occurrences fails: `PExprToInsts` is a
`DenseMap` keyed by the `Expression *` pointer of the freshly allocated
prototype, so the two adds of `x + y` below produce two structurally equal
prototypes at distinct addresses and end up in two separate map entries
instead of one common one. -/
theorem c2_prototype_grouping_fails :
    -- two objects per real instruction, sentinel included: 1 + 2*2
    twoAddsInit.heap.length = 5 ∧
    -- the versioned occurrences are mapped 1:1 with their instructions
    twoAddsInit.instToVExpr = [(1, 2), (2, 4)] ∧
    twoAddsInit.vexprToInst = [(2, 1), (4, 2)] ∧
    -- the two prototypes are the same canonicalized expression ...
    exprEquals (readE twoAddsInit.heap 1) (readE twoAddsInit.heap 3) = true ∧
    -- ... yet the prototype-to-instructions map holds two distinct
    -- entries, one per instruction, not one common entry
    twoAddsInit.pexprToInsts = [(1, [1]), (3, [2])] := by
  decide

/-- C6: the claim says ICmp/FCmp instructions are mapped to a
BasicExpression with the packed `(opcode << 8) | predicate` opcode so that
`icmp slt x, y` and `icmp sgt y, x` get equal prototypes, and only
unsupported instructions yield UnknownExpression.  In the source the
`case Instruction::ICmp / FCmp` bodies of `CreateExpression` are commented
out, so `E` stays null and both compares are classified as
UnknownExpression; their expression objects moreover compare unequal.  The
compare-canonicalization block inside `CreateBasicExpression` is dead code
for compares. -/
theorem c6_cmp_dispatch_yields_unknown :
    (createExpression 2 dfs0 oracle0 icmpSltXY).etype = EType.unknown ∧
    (createExpression 2 dfs0 oracle0 icmpSgtYX).etype = EType.unknown ∧
    exprEquals (createExpression 2 dfs0 oracle0 icmpSltXY)
      (createExpression 2 dfs0 oracle0 icmpSgtYX) = false := by
  decide

/-- C7: for a commutative 2-operand instruction the builder swaps the
operands whenever `rank(op0) > rank(op1)` (rank: undef 0, constant 1,
argument 2+argno, instruction 3+numArgs+dfs), and consequently the
prototypes built for `t1 = x + y` and `t2 = y + x` (x, y the first two
arguments, no simplification) are equal expressions. -/
theorem c7_commutative_canonicalization :
    (∀ (n : Nat) (dfs : Nat → Nat) (a b : Value),
        getRank n dfs a > getRank n dfs b → shouldSwapOperands n dfs a b = true) ∧
    exprEquals (createBasicExpression 2 dfs0 oracle0 addXY)
      (createBasicExpression 2 dfs0 oracle0 addYX) = true := by
  constructor
  · intro n dfs a b h
    unfold shouldSwapOperands
    rw [if_neg (by omega)]
    exact decide_eq_true h
  · decide

/-- Witness for C7 at concrete inputs: `y` (argument 1) outranks `x`
(argument 0), so the builder swaps them. -/
theorem c7_commutative_canonicalization_witness :
    getRank 2 dfs0 yArg > getRank 2 dfs0 xArg ∧
    shouldSwapOperands 2 dfs0 yArg xArg = true :=
  ⟨by decide, c7_commutative_canonicalization.1 2 dfs0 yArg xArg (by decide)⟩

/-- C10: a freshly constructed FactorExpression has `down_safe`,
`can_be_avail` and `later` all true (hence `will_be_avail` false), every
`has_real_use` flag false, and every operand version slot null — which is
distinct from the ⊥ sentinel `&BExpr`, so an unassigned slot never counts
as bottom (`getVExprIndex(&BExpr)` misses). -/
theorem c10_factor_initial_state (pe bb : Nat) (preds : List Nat) :
    (createFactorExpressionObj pe bb preds).downSafe = true ∧
    (createFactorExpressionObj pe bb preds).canBeAvail = true ∧
    (createFactorExpressionObj pe bb preds).later = true ∧
    getWillBeAvail (createFactorExpressionObj pe bb preds) = false ∧
    (createFactorExpressionObj pe bb preds).hasRealUse = List.replicate preds.length false ∧
    (createFactorExpressionObj pe bb preds).fversions = List.replicate preds.length none ∧
    factorHasBottom (createFactorExpressionObj pe bb preds) = false := by
  refine ⟨rfl, rfl, rfl, rfl, rfl, rfl, ?_⟩
  simp [factorHasBottom, createFactorExpressionObj, List.any_eq_false]

end SSAPRE
